import Mathlib

/-!
# Verification of the DIPlib measurement infrastructure

Shallow embedding of the `dip::Measurement` table, the `dip::MeasurementTool`
feature registry, and the `FeatureMass` line-based feature, translated from
`include/diplib/measurement.h` and the `feature_mass.h` implementation.

Modelling conventions:
* `dip::dfloat` (IEEE double) is modelled by `ℚ`: the claims under study are
  about which entries are combined, not about rounding.
* `dip::String` is `String`; the external `dip::Units` class is modelled by a
  plain `String` tag.
* `std::map` is modelled by an association list together with a first-match
  lookup; `emplace` inserts only when the key is absent, faithful to
  `std::map::emplace`.
* `DIP_THROW_IF` failures become `Except`/`Option` errors carrying the thrown
  message. `AddObjectIDs` mutates the object before throwing, so it is
  modelled as returning the mutated state *and* an optional error.
-/

set_option autoImplicit false

namespace Dip

/-- The measurement value type (`dip::dfloat`), modelled exactly. -/
abbrev Value := ℚ

/-- Models `dip::Feature::ValueInformation`: a value label plus its units. -/
structure ValueInformation where
  name : String
  units : String
  deriving DecidableEq, Repr, Inhabited

/-- Models `dip::Feature::Information`: static description of a feature kind. -/
structure Information where
  name : String
  description : String
  needsGreyValue : Bool
  deriving DecidableEq, Repr, Inhabited

/-- Models `dip::Measurement::FeatureInfo`: name, first column, number of columns. -/
structure FeatureInfo where
  name : String
  startColumn : Nat
  numberValues : Nat
  deriving DecidableEq, Repr, Inhabited

/-- First-match lookup in an association list (models `std::map::find`). -/
def lookupA {α : Type} [DecidableEq α] : List (α × Nat) → α → Option Nat
  | [], _ => none
  | (k, v) :: t, x => if x = k then some v else lookupA t x

/-- Models `std::map::emplace`: insert `(k, v)` only when `k` is absent. -/
def emplaceA {α : Type} [DecidableEq α] (l : List (α × Nat)) (k : α) (v : Nat) :
    List (α × Nat) :=
  if (lookupA l k).isSome then l else l ++ [(k, v)]

/-- The entries `(l[0], k), (l[1], k+1), …`: the shape the index maps of a
measurement table take when every key is inserted at push-back time. -/
def idxMapFrom {α : Type} (k : Nat) : List α → List (α × Nat)
  | [] => []
  | a :: l => (a, k) :: idxMapFrom (k + 1) l

/-- Errors thrown by the measurement table (`DIP_THROW_IF` sites). -/
inductive Err where
  | alreadyForged           -- "Measurement object is forged."
  | noFeatureName           -- "No feature name given."
  | featureAlreadyPresent (name : String)  -- "Feature already present: "
  | needsOneValue           -- "A feature needs at least one value."
  | objectAlreadyPresent (id : Nat)        -- "Object already present: "
  | zeroSizedTable          -- "Attempting to forge a zero-sized table."
  | notForged               -- "Measurement object not forged."
  | featureNotPresent (name : String)      -- "Feature not present: "
  | objectNotPresent (id : Nat)            -- "Object not present: "
  deriving DecidableEq, Repr

/-- The message string each error site passes to `DIP_THROW_IF`. -/
def Err.message : Err → String
  | .alreadyForged => "Measurement object is forged."
  | .noFeatureName => "No feature name given."
  | .featureAlreadyPresent name => "Feature already present: " ++ name
  | .needsOneValue => "A feature needs at least one value."
  | .objectAlreadyPresent id => "Object already present: " ++ toString id
  | .zeroSizedTable => "Attempting to forge a zero-sized table."
  | .notForged => "Measurement object not forged."
  | .featureNotPresent name => "Feature not present: " ++ name
  | .objectNotPresent id => "Object not present: " ++ toString id

/-- The spec's error categories (§7 of the design document). -/
inductive ErrKind where
  | alreadyForged
  | notForged
  | invalidArgument
  | unknownFeature
  | unknownObject
  deriving DecidableEq, Repr

/-- Classification of each thrown error into the spec's categories. -/
def Err.kind : Err → ErrKind
  | .alreadyForged => .alreadyForged
  | .noFeatureName => .invalidArgument
  | .featureAlreadyPresent _ => .invalidArgument
  | .needsOneValue => .invalidArgument
  | .objectAlreadyPresent _ => .invalidArgument
  | .zeroSizedTable => .invalidArgument
  | .notForged => .notForged
  | .featureNotPresent _ => .unknownFeature
  | .objectNotPresent _ => .unknownObject

/-- The `dip::Measurement` table state: its six private data members. -/
structure Measurement where
  objects : List Nat                       -- objects_ (row order)
  objectIndices : List (Nat × Nat)         -- objectIndices_ (id → row index)
  features : List FeatureInfo              -- features_ (column groups)
  values : List ValueInformation           -- values_ (all value columns)
  featureIndices : List (String × Nat)     -- featureIndices_ (name → feature index)
  data : List Value                        -- data_ (dense buffer)
  deriving DecidableEq, Repr

/-- The default-constructed (empty) measurement table. -/
def measurementEmpty : Measurement := ⟨[], [], [], [], [], []⟩

namespace Measurement

/-- Source `IsForged()`: `!data_.empty()`. -/
def IsForged (m : Measurement) : Bool := !m.data.isEmpty

/-- Source `FeatureExists(name)`: `featureIndices_.count(name) != 0`. -/
def FeatureExists (m : Measurement) (name : String) : Bool :=
  (lookupA m.featureIndices name).isSome

/-- Source `ObjectExists(objectID)`: `objectIndices_.count(objectID) != 0`. -/
def ObjectExists (m : Measurement) (id : Nat) : Bool :=
  (lookupA m.objectIndices id).isSome

/-- Source `FeatureIndex(name)`: map lookup, throws "Feature not present" on miss. -/
def FeatureIndex (m : Measurement) (name : String) : Except Err Nat :=
  match lookupA m.featureIndices name with
  | some i => .ok i
  | none => .error (.featureNotPresent name)

/-- Source `ObjectIndex(objectID)`: map lookup, throws "Object not present" on miss. -/
def ObjectIndex (m : Measurement) (id : Nat) : Except Err Nat :=
  match lookupA m.objectIndices id with
  | some i => .ok i
  | none => .error (.objectNotPresent id)

/-- Source `Stride()`: returns `values_.size()` with no forged check. -/
def Stride (m : Measurement) : Nat := m.values.length

/-- Source `NumberOfObjects()`: `objects_.size()`. -/
def NumberOfObjects (m : Measurement) : Nat := m.objects.length

/-- Source `NumberOfFeatures()`: `features_.size()`. -/
def NumberOfFeatures (m : Measurement) : Nat := m.features.length

/-- Source `NumberOfValues()`: `values_.size()`. -/
def NumberOfValues (m : Measurement) : Nat := m.values.length

/-- Source `Data()`: raw pointer to the buffer; throws when not forged. -/
def Data (m : Measurement) : Except Err (List Value) :=
  if !m.IsForged then .error .notForged else .ok m.data

/-- Source `AddFeature_(name, values)`: append the value records, append a
feature-info entry at `startColumn = values_.size()` before the append, and
emplace the name at the new feature index. -/
def AddFeature_ (m : Measurement) (name : String) (values : List ValueInformation) :
    Measurement :=
  { m with
    values := m.values ++ values
    features := m.features ++ [⟨name, m.values.length, values.length⟩]
    featureIndices := emplaceA m.featureIndices name m.features.length }

/-- Source `AddFeature(name, values)` with its four `DIP_THROW_IF` guards, in source
order. -/
def AddFeature (m : Measurement) (name : String) (values : List ValueInformation) :
    Except Err Measurement :=
  if m.IsForged then .error .alreadyForged
  else if name = "" then .error .noFeatureName
  else if m.FeatureExists name then .error (.featureAlreadyPresent name)
  else if values.isEmpty then .error .needsOneValue
  else .ok (m.AddFeature_ name values)

/-- Source `EnsureFeature(name, values)`: like `AddFeature` but an existing name is a
silent no-op, returning before the `values.empty()` check. -/
def EnsureFeature (m : Measurement) (name : String) (values : List ValueInformation) :
    Except Err Measurement :=
  if m.IsForged then .error .alreadyForged
  else if name = "" then .error .noFeatureName
  else if m.FeatureExists name then .ok m
  else if values.isEmpty then .error .needsOneValue
  else .ok (m.AddFeature_ name values)

/-- The loop body of `AddObjectIDs`: each ID is checked and pushed in turn, so
a throw leaves the previously processed IDs inserted. -/
def addObjectLoop (m : Measurement) : List Nat → Measurement × Option Err
  | [] => (m, none)
  | id :: rest =>
    if m.ObjectExists id then (m, some (.objectAlreadyPresent id))
    else addObjectLoop
      { m with
        objects := m.objects ++ [id]
        objectIndices := emplaceA m.objectIndices id m.objects.length } rest

/-- Source `AddObjectIDs(objectIDs)`: forged check, then the insertion loop. The
returned state is the table after the call, throw or not. -/
def AddObjectIDs (m : Measurement) (ids : List Nat) : Measurement × Option Err :=
  if m.IsForged then (m, some .alreadyForged)
  else m.addObjectLoop ids

/-- Source `Forge()`: when not yet forged, throws on a zero-sized table and otherwise
resizes `data_` to `values_.size() * objects_.size()` zero values. -/
def Forge (m : Measurement) : Except Err Measurement :=
  if m.IsForged then .ok m
  else if m.values.length * m.objects.length = 0 then .error .zeroSizedTable
  else .ok { m with data := List.replicate (m.values.length * m.objects.length) 0 }

/-- The fallback used to model `features_[i]` (unchecked `operator[]`). -/
def featureInfoDefault : FeatureInfo := ⟨"", 0, 0⟩

/-- The cell value `table[name][id][k]`, read through the feature view:
`IteratorFeature::Iterator::begin()` computes
`data_.data() + index_ * Stride() + Feature().startColumn` with no forged
check; dereferencing at offset `k` is modelled by `List.get?`. -/
def featureViewValue (m : Measurement) (name : String) (id k : Nat) :
    Except Err (Option Value) := do
  let fi ← m.FeatureIndex name     -- msr[name]
  let oi ← m.ObjectIndex id        -- [id]
  pure (m.data.get? (oi * m.Stride + ((m.features.getD fi featureInfoDefault).startColumn) + k))

/-- The cell value `table[id][name][k]`, read through the object view:
`IteratorObject::Iterator::begin()` calls `Data()` (which throws when not
forged) and adds `index_ * Stride() + Feature().startColumn`. -/
def objectViewValue (m : Measurement) (id : Nat) (name : String) (k : Nat) :
    Except Err (Option Value) := do
  let oi ← m.ObjectIndex id        -- msr[id]
  let fi ← m.FeatureIndex name     -- [name]
  let buf ← m.Data                 -- begin() calls Data()
  pure (buf.get? (oi * m.Stride + ((m.features.getD fi featureInfoDefault).startColumn) + k))

end Measurement

/-! ## Operation sequences and the table invariant -/

/-- One public schema-building call on a `Measurement`. -/
inductive Op where
  | addFeature (name : String) (values : List ValueInformation)
  | ensureFeature (name : String) (values : List ValueInformation)
  | addObjectIDs (ids : List Nat)
  | forge
  deriving DecidableEq, Repr

/-- Run one operation, demanding success (`AddObjectIDs` succeeds when it
throws nothing). -/
def runOp (m : Measurement) : Op → Except Err Measurement
  | .addFeature name values => m.AddFeature name values
  | .ensureFeature name values => m.EnsureFeature name values
  | .addObjectIDs ids =>
    match m.AddObjectIDs ids with
    | (m', none) => .ok m'
    | (_, some e) => .error e
  | .forge => m.Forge

/-- Run a sequence of operations, stopping at the first failure. -/
def runOps (m : Measurement) : List Op → Except Err Measurement
  | [] => .ok m
  | op :: ops =>
    match runOp m op with
    | .ok m' => runOps m' ops
    | .error e => .error e

/-- Total number of value columns declared by a feature-info list. -/
def featureValueSum (fs : List FeatureInfo) : Nat :=
  (fs.map (·.numberValues)).sum

/-- The column groups of `fs` tile the columns contiguously from `c` on, in
order: each feature starts where the previous one ended. -/
def tiledFrom (c : Nat) : List FeatureInfo → Bool
  | [] => true
  | f :: fs => (f.startColumn == c) && tiledFrom (c + f.numberValues) fs

/-- The structural invariant of every reachable `Measurement`: the value
array matches the feature column groups, which tile `[0, Stride)`; the data
buffer is empty or exactly `Stride × NumberOfObjects`; object IDs are unique
and both index maps are exactly the push-back-order index maps of their
arrays. -/
def WellFormed (m : Measurement) : Prop :=
  m.values.length = featureValueSum m.features ∧
  tiledFrom 0 m.features = true ∧
  (m.data.length = 0 ∨ m.data.length = m.values.length * m.objects.length) ∧
  m.objects.Nodup ∧
  m.objectIndices = idxMapFrom 0 m.objects ∧
  m.featureIndices = idxMapFrom 0 (m.features.map (·.name))

instance (m : Measurement) : Decidable (WellFormed m) := by
  unfold WellFormed; infer_instance

/-! ## The feature registry (`dip::MeasurementTool`) -/

/-- The `dip::MeasurementTool` registry state. A registered feature instance
is represented by its `Information` record, the only observable of
`Features()`; two instances with the same `name` may still differ in their
other fields, which is what distinguishes "first survives" from "last
survives". -/
structure Tool where
  features : List Information              -- features_ (owned instances)
  featureIndices : List (String × Nat)     -- featureIndices_ (name → index)
  deriving DecidableEq, Repr

/-- A tool with no registered features (the built-in catalog is registered
through the same `Register` calls at construction). -/
def toolEmpty : Tool := ⟨[], []⟩

/-- Source `MeasurementTool::Register(feature)`: when the name is new, push the
instance and emplace its index; otherwise drop the argument silently. -/
def Register (t : Tool) (f : Information) : Tool :=
  if (lookupA t.featureIndices f.name).isSome then t
  else
    { features := t.features ++ [f]
      featureIndices := emplaceA t.featureIndices f.name t.features.length }

/-- Source `MeasurementTool::Features()`: the information records of the registered
instances, in registration order. -/
def Features (t : Tool) : List Information := t.features

/-- The spec's description of the registry contents ("one information record
per distinct name, first registered instance survives"): keep the first
occurrence of each name not yet seen. Written from the spec, to be compared
with the fold of `Register`. -/
def specFirstByName : List Information → List String → List Information
  | [], _ => []
  | f :: fs, seen =>
    if f.name ∈ seen then specFirstByName fs seen
    else f :: specFirstByName fs (f.name :: seen)

/-! ## The Mass feature (`FeatureMass`) -/

/-- Source `FeatureMass::Initialize`: clear and resize the accumulator array to one
zero per object. (The returned value information is a single "Mass" column.) -/
def massInit (nObjects : Nat) : List Value := List.replicate nObjects 0

/-- The value information `FeatureMass::Initialize` returns: one column named
"Mass" with default units. -/
def massValueInfo : List ValueInformation := [⟨"Mass", ""⟩]

/-- The cache update inside `FeatureMass::ScanLine`: the accumulator slot is
re-fetched from `objectIndices` only when the label differs from the cached
`objectID`; a label absent from the map leaves the cached pointer null. -/
def massCacheStep (objectIndices : List (Nat × Nat)) (l cacheID : Nat)
    (cacheIdx : Option Nat) : Nat × Option Nat :=
  if l ≠ cacheID then (l, lookupA objectIndices l) else (cacheID, cacheIdx)

/-- Source `if( data ) { *data += *grey; }`: add `g` into the cached accumulator
slot, when the cached pointer is non-null. -/
def massApply (acc : List Value) (cacheIdx : Option Nat) (g : Value) : List Value :=
  match cacheIdx with
  | some j => acc.set j (acc.getD j 0 + g)
  | none => acc

/-- The loop body of `FeatureMass::ScanLine`, walking the label and grey line
iterators in step. Label `0` is skipped before any cache update or lookup. -/
def massScanLoop (objectIndices : List (Nat × Nat)) :
    List Nat → List Value → Nat → Option Nat → List Value → List Value
  | l :: ls, g :: gs, cacheID, cacheIdx, acc =>
    if 0 < l then
      massScanLoop objectIndices ls gs
        (massCacheStep objectIndices l cacheID cacheIdx).1
        (massCacheStep objectIndices l cacheID cacheIdx).2
        (massApply acc (massCacheStep objectIndices l cacheID cacheIdx).2 g)
    else massScanLoop objectIndices ls gs cacheID cacheIdx acc
  | _, _, _, _, acc => acc

/-- Source `FeatureMass::ScanLine`: the loop starts with `objectID = 0` and a null
data pointer. -/
def massScanLine (objectIndices : List (Nat × Nat)) (labels : List Nat)
    (greys : List Value) (acc : List Value) : List Value :=
  massScanLoop objectIndices labels greys 0 none acc

/-- All scanlines of the image presented to `ScanLine` in turn, as the
measurement driver does; each call starts with a fresh cache. -/
def massScanAll (objectIndices : List (Nat × Nat))
    (lines : List (List Nat × List Value)) (acc : List Value) : List Value :=
  lines.foldl (fun a lg => massScanLine objectIndices lg.1 lg.2 a) acc

/-- Source `FeatureMass::Finish(objectIndex, output)`: `*output = data_[objectIndex]`. -/
def massFinish (acc : List Value) (objectIndex : Nat) : Value :=
  acc.getD objectIndex 0

/-- The sum of the grey values over the pixels of one line whose label equals
`t` — the quantity the spec says Mass computes. -/
def lineMassSum (t : Nat) : List Nat → List Value → Value
  | l :: ls, g :: gs => (if l = t then g else 0) + lineMassSum t ls gs
  | _, _ => 0

/-! ## Lemmas about lookups and index maps -/

theorem lookupA_append_of_none {α : Type} [DecidableEq α] {l : List (α × Nat)}
    (l' : List (α × Nat)) {x : α} (h : lookupA l x = none) :
    lookupA (l ++ l') x = lookupA l' x := by
  induction l with
  | nil => simp [lookupA]
  | cons p t ih =>
    obtain ⟨k, v⟩ := p
    simp only [lookupA] at h ⊢
    by_cases hx : x = k
    · simp [hx] at h
    · simp only [if_neg hx] at h ⊢
      exact ih h

theorem lookupA_append_of_some {α : Type} [DecidableEq α] {l : List (α × Nat)}
    (l' : List (α × Nat)) {x : α} {v : Nat} (h : lookupA l x = some v) :
    lookupA (l ++ l') x = some v := by
  induction l with
  | nil => simp [lookupA] at h
  | cons p t ih =>
    obtain ⟨k, w⟩ := p
    simp only [lookupA] at h ⊢
    by_cases hx : x = k
    · simpa [hx] using h
    · simp only [if_neg hx] at h ⊢
      exact ih h

theorem idxMapFrom_append {α : Type} (k : Nat) (l : List α) (a : α) :
    idxMapFrom k (l ++ [a]) = idxMapFrom k l ++ [(a, k + l.length)] := by
  induction l generalizing k with
  | nil => simp [idxMapFrom]
  | cons b t ih =>
    simp only [List.cons_append, idxMapFrom, List.append_eq, ih (k + 1),
      List.length_cons]
    have hk : k + 1 + t.length = k + (t.length + 1) := by omega
    rw [hk]

theorem lookupA_idxMapFrom_isSome {α : Type} [DecidableEq α] (k : Nat)
    (l : List α) (x : α) :
    (lookupA (idxMapFrom k l) x).isSome = true ↔ x ∈ l := by
  induction l generalizing k with
  | nil => simp [idxMapFrom, lookupA]
  | cons a t ih =>
    simp only [idxMapFrom, lookupA, List.mem_cons]
    by_cases hx : x = a
    · simp [hx]
    · simp only [if_neg hx]
      rw [ih (k + 1)]
      simp [hx]

theorem lookupA_idxMapFrom_range {α : Type} [DecidableEq α] {k : Nat}
    {l : List α} {x : α} {i : Nat} (h : lookupA (idxMapFrom k l) x = some i) :
    k ≤ i ∧ i < k + l.length := by
  induction l generalizing k with
  | nil => simp [idxMapFrom, lookupA] at h
  | cons a t ih =>
    simp only [idxMapFrom, lookupA] at h
    by_cases hx : x = a
    · simp only [if_pos hx, Option.some.injEq] at h
      simp [← h]
    · simp only [if_neg hx] at h
      have := ih h
      simp only [List.length_cons]
      omega

theorem lookupA_idxMapFrom_get {α : Type} [DecidableEq α] {k : Nat}
    {l : List α} {x : α} {i : Nat} (h : lookupA (idxMapFrom k l) x = some i) :
    l.get? (i - k) = some x := by
  induction l generalizing k with
  | nil => simp [idxMapFrom, lookupA] at h
  | cons a t ih =>
    simp only [idxMapFrom, lookupA] at h
    by_cases hx : x = a
    · simp only [if_pos hx, Option.some.injEq] at h
      simp [← h, hx]
    · simp only [if_neg hx] at h
      have hrange := lookupA_idxMapFrom_range h
      have := ih h
      have hik : i - k = (i - (k + 1)) + 1 := by omega
      rw [hik]
      simpa using this

theorem lookupA_emplaceA_of_absent {α : Type} [DecidableEq α]
    {l : List (α × Nat)} {k : α} (v : Nat) (h : lookupA l k = none) :
    emplaceA l k v = l ++ [(k, v)] := by
  simp [emplaceA, h]

/-! ## Lemmas about the column tiling -/

theorem featureValueSum_append (fs : List FeatureInfo) (f : FeatureInfo) :
    featureValueSum (fs ++ [f]) = featureValueSum fs + f.numberValues := by
  simp [featureValueSum]

theorem tiledFrom_append {c : Nat} {fs : List FeatureInfo}
    (h : tiledFrom c fs = true) (name : String) (n : Nat) :
    tiledFrom c (fs ++ [⟨name, c + featureValueSum fs, n⟩]) = true := by
  induction fs generalizing c with
  | nil => simp [tiledFrom, featureValueSum]
  | cons f t ih =>
    simp only [tiledFrom, Bool.and_eq_true, beq_iff_eq] at h
    obtain ⟨h1, h2⟩ := h
    simp only [List.cons_append, tiledFrom, Bool.and_eq_true, beq_iff_eq]
    refine ⟨h1, ?_⟩
    have := ih h2
    have hsum : c + featureValueSum (f :: t)
        = c + f.numberValues + featureValueSum t := by
      simp [featureValueSum]; omega
    rw [hsum]
    exact this

theorem tiledFrom_bounds {c : Nat} {fs : List FeatureInfo}
    (h : tiledFrom c fs = true) {i : Nat} {f : FeatureInfo}
    (hget : fs.get? i = some f) :
    c ≤ f.startColumn ∧ f.startColumn + f.numberValues ≤ c + featureValueSum fs := by
  induction fs generalizing c i with
  | nil => simp at hget
  | cons g t ih =>
    simp only [tiledFrom, Bool.and_eq_true, beq_iff_eq] at h
    obtain ⟨h1, h2⟩ := h
    match i, hget with
    | 0, hget =>
      simp only [List.get?_cons_zero, Option.some.injEq] at hget
      subst hget
      have : featureValueSum (g :: t) = g.numberValues + featureValueSum t := by
        simp [featureValueSum]
      omega
    | Nat.succ j, hget =>
      simp only [List.get?_cons_succ] at hget
      have := ih h2 hget
      have : featureValueSum (g :: t) = g.numberValues + featureValueSum t := by
        simp [featureValueSum]
      omega

/-! ## Preservation of the table invariant -/

theorem wellFormed_empty : WellFormed measurementEmpty := by decide

theorem wellFormed_addFeature_ {m : Measurement} (hwf : WellFormed m)
    (hdata : m.data = []) {name : String} {values : List ValueInformation}
    (habs : m.FeatureExists name = false) :
    WellFormed (m.AddFeature_ name values) := by
  obtain ⟨hval, htile, _, hnodup, homap, hfmap⟩ := hwf
  have habs' : lookupA m.featureIndices name = none := by
    simp only [Measurement.FeatureExists] at habs
    exact Option.not_isSome_iff_eq_none.mp (by simp [habs])
  refine ⟨?_, ?_, ?_, ?_, ?_, ?_⟩
  · simp only [Measurement.AddFeature_, List.length_append]
    rw [featureValueSum_append, hval]
  · simp only [Measurement.AddFeature_]
    rw [hval]
    have := @tiledFrom_append 0 m.features htile name values.length
    simpa using this
  · simp [Measurement.AddFeature_, hdata]
  · simpa [Measurement.AddFeature_] using hnodup
  · simpa [Measurement.AddFeature_] using homap
  · simp only [Measurement.AddFeature_]
    rw [lookupA_emplaceA_of_absent _ habs', hfmap, List.map_append]
    simpa using (idxMapFrom_append 0 (m.features.map (·.name)) name).symm

theorem wellFormed_addObjectLoop {ids : List Nat} :
    ∀ {m : Measurement}, WellFormed m → m.data = [] →
      (m.addObjectLoop ids).1.features = m.features ∧
      (m.addObjectLoop ids).1.values = m.values ∧
      (m.addObjectLoop ids).1.featureIndices = m.featureIndices ∧
      (m.addObjectLoop ids).1.data = [] ∧
      WellFormed (m.addObjectLoop ids).1 := by
  induction ids with
  | nil =>
    intro m hwf hdata
    exact ⟨rfl, rfl, rfl, hdata, hwf⟩
  | cons id rest ih =>
    intro m hwf hdata
    obtain ⟨hval, htile, hdlen, hnodup, homap, hfmap⟩ := hwf
    by_cases hex : m.ObjectExists id
    · have hstep : m.addObjectLoop (id :: rest) = (m, some (.objectAlreadyPresent id)) := by
        simp [Measurement.addObjectLoop, hex]
      rw [hstep]
      exact ⟨rfl, rfl, rfl, hdata, hval, htile, hdlen, hnodup, homap, hfmap⟩
    · have habs : lookupA m.objectIndices id = none := by
        simp only [Measurement.ObjectExists] at hex
        exact Option.not_isSome_iff_eq_none.mp (by simp [hex])
      have hnotmem : id ∉ m.objects := by
        intro hmem
        rw [← lookupA_idxMapFrom_isSome 0 m.objects id, ← homap] at hmem
        simp [habs] at hmem
      have hwf' : WellFormed
          { m with objects := m.objects ++ [id]
                   objectIndices := emplaceA m.objectIndices id m.objects.length } := by
        refine ⟨hval, htile, Or.inl (by simp [hdata]), ?_, ?_, hfmap⟩
        · rw [List.nodup_append]
          refine ⟨hnodup, List.nodup_singleton id, ?_⟩
          intro x hx hx'
          simp only [List.mem_singleton] at hx'
          subst hx'
          exact hnotmem hx
        · simp only
          rw [lookupA_emplaceA_of_absent _ habs, homap]
          have := (idxMapFrom_append 0 m.objects id).symm
          simpa using this
      simp only [Measurement.addObjectLoop, if_neg hex]
      exact ih hwf' (by simp [hdata])

theorem data_eq_nil_of_not_forged {m : Measurement} (h : m.IsForged = false) :
    m.data = [] := by
  simpa [Measurement.IsForged] using h

theorem wellFormed_runOp {m m' : Measurement} {op : Op} (hwf : WellFormed m)
    (h : runOp m op = .ok m') : WellFormed m' := by
  cases op with
  | addFeature name values =>
    simp only [runOp, Measurement.AddFeature] at h
    by_cases h1 : m.IsForged
    · simp [h1] at h
    · by_cases h2 : name = ""
      · simp [h1, h2] at h
      · by_cases h3 : m.FeatureExists name
        · simp [h1, h2, h3] at h
        · by_cases h4 : values.isEmpty
          · simp [h1, h2, h3, h4] at h
          · simp only [h1, h2, h3, h4, Bool.false_eq_true, if_false, if_neg,
              Except.ok.injEq, if_pos, Bool.not_eq_true] at h
            subst h
            exact wellFormed_addFeature_ hwf
              (data_eq_nil_of_not_forged (by simpa using h1))
              (by simpa using h3)
  | ensureFeature name values =>
    simp only [runOp, Measurement.EnsureFeature] at h
    by_cases h1 : m.IsForged
    · simp [h1] at h
    · by_cases h2 : name = ""
      · simp [h1, h2] at h
      · by_cases h3 : m.FeatureExists name
        · simp only [h1, h2, h3, Bool.false_eq_true, if_false, if_true,
            Except.ok.injEq, if_neg, if_pos] at h
          subst h
          exact hwf
        · by_cases h4 : values.isEmpty
          · simp [h1, h2, h3, h4] at h
          · simp only [h1, h2, h3, h4, Bool.false_eq_true, if_false, if_neg,
              Except.ok.injEq, if_pos, Bool.not_eq_true] at h
            subst h
            exact wellFormed_addFeature_ hwf
              (data_eq_nil_of_not_forged (by simpa using h1))
              (by simpa using h3)
  | addObjectIDs ids =>
    simp only [runOp] at h
    rcases hres : m.AddObjectIDs ids with ⟨ml, e⟩
    rw [hres] at h
    cases e with
    | none =>
      have hml : ml = m' := by simpa using h
      subst hml
      by_cases h1 : m.IsForged
      · simp only [Measurement.AddObjectIDs, if_pos h1] at hres
        simp at hres
      · simp only [Measurement.AddObjectIDs, if_neg h1] at hres
        obtain ⟨-, -, -, -, hwf'⟩ := @wellFormed_addObjectLoop ids m hwf
          (data_eq_nil_of_not_forged (by simpa using h1))
        rw [hres] at hwf'
        exact hwf'
    | some e' => simp at h
  | forge =>
    simp only [runOp, Measurement.Forge] at h
    by_cases h1 : m.IsForged
    · simp only [h1, if_true, Except.ok.injEq, if_pos] at h
      subst h
      exact hwf
    · by_cases h2 : m.values.length * m.objects.length = 0
      · simp [h1, h2] at h
      · simp only [h1, h2, Bool.false_eq_true, if_false, if_neg,
          Except.ok.injEq, if_pos] at h
        subst h
        obtain ⟨hval, htile, -, hnodup, homap, hfmap⟩ := hwf
        exact ⟨hval, htile, Or.inr (by simp), hnodup, homap, hfmap⟩

theorem wellFormed_runOps {ops : List Op} :
    ∀ {m m' : Measurement}, WellFormed m → runOps m ops = .ok m' →
      WellFormed m' := by
  induction ops with
  | nil =>
    intro m m' hwf h
    simp only [runOps, Except.ok.injEq] at h
    subst h
    exact hwf
  | cons op ops ih =>
    intro m m' hwf h
    simp only [runOps] at h
    rcases hop : runOp m op with e | m1
    · rw [hop] at h
      simp at h
    · rw [hop] at h
      simp only at h
      exact ih (wellFormed_runOp hwf hop) h

/-- Any table produced by a successful operation sequence from the empty
table is well-formed. -/
theorem wellFormed_reachable {ops : List Op} {m : Measurement}
    (h : runOps measurementEmpty ops = .ok m) : WellFormed m :=
  wellFormed_runOps wellFormed_empty h

/-! ## Concrete example tables used by the witnesses -/

/-- A one-feature, one-object, unforged table. -/
def mEx : Measurement :=
  ⟨[7], [(7, 0)], [⟨"Size", 0, 1⟩], [⟨"", "px"⟩], [("Size", 0)], []⟩

/-- The same table, forged, with the single cell holding 5. -/
def mExF : Measurement :=
  ⟨[7], [(7, 0)], [⟨"Size", 0, 1⟩], [⟨"", "px"⟩], [("Size", 0)], [5]⟩

/-! ## C2 -/

/-- C2: `AddFeature(name, values)` fails with *AlreadyForged* when the table
is forged; on a non-forged table it fails with an *InvalidArgument*-kind
error exactly when the name is empty, the values array is empty, or the name
is already present; otherwise it appends the value-information records and a
feature-info entry whose `startColumn` is the number of value columns before
the call. -/
theorem addFeature_spec (m : Measurement) (name : String)
    (values : List ValueInformation) :
    (m.IsForged = true → m.AddFeature name values = .error .alreadyForged) ∧
    (m.IsForged = false →
      ((∃ e, m.AddFeature name values = .error e ∧ e.kind = .invalidArgument) ↔
        (name = "" ∨ values = [] ∨ m.FeatureExists name = true))) ∧
    (∀ m', m.AddFeature name values = .ok m' →
      m'.values = m.values ++ values ∧
      m'.features = m.features ++ [⟨name, m.values.length, values.length⟩]) := by
  refine ⟨?_, ?_, ?_⟩
  · intro h1
    simp [Measurement.AddFeature, h1]
  · intro h1
    constructor
    · rintro ⟨e, he, -⟩
      by_cases h2 : name = ""
      · exact Or.inl h2
      by_cases h3 : m.FeatureExists name
      · exact Or.inr (Or.inr h3)
      by_cases h4 : values.isEmpty
      · exact Or.inr (Or.inl (by simpa using h4))
      · simp [Measurement.AddFeature, h1, h2, h3, h4] at he
    · intro hcase
      by_cases h2 : name = ""
      · exact ⟨.noFeatureName, by simp [Measurement.AddFeature, h1, h2], rfl⟩
      by_cases h3 : m.FeatureExists name
      · exact ⟨.featureAlreadyPresent name,
          by simp [Measurement.AddFeature, h1, h2, h3], rfl⟩
      · have h4 : values = [] := by tauto
        exact ⟨.needsOneValue,
          by simp [Measurement.AddFeature, h1, h2, h3, h4], rfl⟩
  · intro m' h
    by_cases h1 : m.IsForged
    · simp [Measurement.AddFeature, h1] at h
    · by_cases h2 : name = ""
      · simp [Measurement.AddFeature, h1, h2] at h
      · by_cases h3 : m.FeatureExists name
        · simp [Measurement.AddFeature, h1, h2, h3] at h
        · by_cases h4 : values.isEmpty
          · simp [Measurement.AddFeature, h1, h2, h3, h4] at h
          · simp only [Measurement.AddFeature, h1, h2, h3, h4,
              Bool.false_eq_true, if_false, if_neg, Except.ok.injEq] at h
            subst h
            exact ⟨rfl, rfl⟩

/-- Witness for C2: on the empty table, adding feature "Size" with one value
succeeds and lays it out at column 0; on the forged table `mExF` the same
call fails with *AlreadyForged*. -/
theorem addFeature_spec_witness :
    measurementEmpty.AddFeature "Size" [⟨"", "px"⟩] =
      .ok { measurementEmpty with
            values := [⟨"", "px"⟩]
            features := [⟨"Size", 0, 1⟩]
            featureIndices := [("Size", 0)] } ∧
    mExF.AddFeature "Size" [⟨"", "px"⟩] = .error .alreadyForged := by
  constructor
  · rfl
  · exact (addFeature_spec mExF "Size" [⟨"", "px"⟩]).1 rfl

/-! ## C10 -/

/-- C10: on a non-forged table, `EnsureFeature` with an already-present
(nonempty) name succeeds as a no-op for every values array, the empty one
included; with an absent name and empty values it fails with the same
"needs at least one value" error that `AddFeature` raises. -/
theorem ensureFeature_spec (m : Measurement) (name : String)
    (h1 : m.IsForged = false) (h2 : name ≠ "") :
    (m.FeatureExists name = true →
      ∀ values, m.EnsureFeature name values = .ok m) ∧
    (m.FeatureExists name = false →
      m.EnsureFeature name [] = .error .needsOneValue ∧
      m.AddFeature name [] = .error .needsOneValue) := by
  constructor
  · intro h3 values
    simp [Measurement.EnsureFeature, h1, h2, h3]
  · intro h3
    constructor
    · simp [Measurement.EnsureFeature, h1, h2, h3]
    · simp [Measurement.AddFeature, h1, h2, h3]

/-- Witness for C10: on `mEx` (feature "Size" present, not forged),
`EnsureFeature("Size", {})` succeeds as a no-op while
`EnsureFeature("Mass", {})` fails exactly like `AddFeature("Mass", {})`. -/
theorem ensureFeature_spec_witness :
    mEx.EnsureFeature "Size" [] = .ok mEx ∧
    mEx.EnsureFeature "Mass" [] = .error .needsOneValue ∧
    mEx.AddFeature "Mass" [] = .error .needsOneValue := by
  refine ⟨(ensureFeature_spec mEx "Size" rfl (by decide)).1 rfl [], ?_, ?_⟩
  · exact ((ensureFeature_spec mEx "Mass" rfl (by decide)).2 rfl).1
  · exact ((ensureFeature_spec mEx "Mass" rfl (by decide)).2 rfl).2

/-! ## C5 (corrected) -/

/-- Counterexample to C5 as stated: the default-constructed table is not
forged, and `Data()` does fail there, but `Stride()` does not fail — the
source returns `values_.size()` with no forged check, here the value 0. -/
theorem stride_unforged_cex :
    measurementEmpty.IsForged = false ∧
    measurementEmpty.Data = .error .notForged ∧
    measurementEmpty.Stride = 0 :=
  ⟨rfl, rfl, rfl⟩

/-- C5 amended: `Data()` fails with *NotForged* exactly when the table is not
forged and returns the buffer otherwise; `Stride()` never fails and returns
the total number of value columns whether or not the table is forged. -/
theorem data_stride_access (m : Measurement) :
    (m.IsForged = false → m.Data = .error .notForged) ∧
    (m.IsForged = true → m.Data = .ok m.data) ∧
    m.Stride = m.values.length := by
  refine ⟨?_, ?_, rfl⟩
  · intro h
    simp [Measurement.Data, h]
  · intro h
    simp [Measurement.Data, h]

/-- Witness for C5's amended statement, on the unforged `mEx` and the forged
`mExF`: `Data` fails on the former and succeeds on the latter, while `Stride`
returns 1 on both. -/
theorem data_stride_access_witness :
    mEx.Data = .error .notForged ∧ mExF.Data = .ok [5] ∧
    mEx.Stride = 1 ∧ mExF.Stride = 1 := by
  refine ⟨(data_stride_access mEx).1 rfl, ?_, ?_, ?_⟩
  · exact ((data_stride_access mExF).2.1 rfl).trans rfl
  · exact (data_stride_access mEx).2.2.trans rfl
  · exact (data_stride_access mExF).2.2.trans rfl

/-! ## C3 -/

/-- C3: on a well-formed table, `Forge()` on a non-forged table with at least
one value column and one object allocates the zero-initialized buffer of
exactly `Stride × NumberOfObjects` values and changes nothing else; on a
forged table it is a no-op; and it fails exactly when
`Stride × NumberOfObjects = 0`. -/
theorem forge_spec (m : Measurement) (hwf : WellFormed m) :
    (m.IsForged = false → 0 < m.values.length → 0 < m.objects.length →
      m.Forge = .ok { m with
        data := List.replicate (m.Stride * m.NumberOfObjects) (0 : Value) }) ∧
    (m.IsForged = true → m.Forge = .ok m) ∧
    ((∃ e, m.Forge = .error e) ↔ m.Stride * m.NumberOfObjects = 0) := by
  obtain ⟨-, -, hdlen, -, -, -⟩ := hwf
  refine ⟨?_, ?_, ?_, ?_⟩
  · intro h1 h2 h3
    have hn : ¬(m.values.length * m.objects.length = 0) :=
      Nat.mul_ne_zero (by omega) (by omega)
    simp [Measurement.Forge, h1, hn, Measurement.Stride, Measurement.NumberOfObjects]
  · intro h1
    simp [Measurement.Forge, h1]
  · rintro ⟨e, he⟩
    by_cases h1 : m.IsForged
    · simp [Measurement.Forge, h1] at he
    · by_cases h2 : m.values.length * m.objects.length = 0
      · simpa [Measurement.Stride, Measurement.NumberOfObjects] using h2
      · simp [Measurement.Forge, h1, h2] at he
  · intro h2
    simp only [Measurement.Stride, Measurement.NumberOfObjects] at h2
    by_cases h1 : m.IsForged
    · exfalso
      have hne : m.data ≠ [] := by
        simpa [Measurement.IsForged] using h1
      rcases hdlen with h | h
      · exact hne (List.length_eq_zero.mp h)
      · rw [h2] at h
        exact hne (List.length_eq_zero.mp h)
    · exact ⟨.zeroSizedTable, by simp [Measurement.Forge, h1, h2]⟩

/-- Witness for C3: forging `mEx` (one value column, one object) allocates
`[0]`, forging the forged `mExF` again is a no-op, and the empty table's
forge fails (its column/object product is zero). -/
theorem forge_spec_witness :
    mEx.Forge = .ok { mEx with data := [0] } ∧
    mExF.Forge = .ok mExF ∧
    ∃ e, measurementEmpty.Forge = .error e := by
  refine ⟨?_, ?_, ?_⟩
  · have h := (forge_spec mEx (by decide)).1 rfl (by decide) (by decide)
    simpa using h
  · exact (forge_spec mExF (by decide)).2.1 rfl
  · exact (forge_spec measurementEmpty (by decide)).2.2.mpr rfl

/-! ## C1 -/

/-- C1: on a well-formed forged table, for every valid feature name, object
identifier and value index `k < numberValues`, the cell value reached through
the feature view (`table[name][id][k]`) equals the one reached through the
object view (`table[id][name][k]`), and both read the buffer element at
`row_index(id) * Stride() + startColumn(name) + k`, an in-range index. -/
theorem view_duality (m : Measurement) (hwf : WellFormed m)
    (hforged : m.IsForged = true) (name : String) (id k fi oi : Nat)
    (hfi : m.FeatureIndex name = .ok fi) (hoi : m.ObjectIndex id = .ok oi)
    (hk : k < (m.features.getD fi Measurement.featureInfoDefault).numberValues) :
    ∃ v : Value,
      m.featureViewValue name id k = .ok (some v) ∧
      m.objectViewValue id name k = .ok (some v) ∧
      m.data.get? (oi * m.Stride +
        (m.features.getD fi Measurement.featureInfoDefault).startColumn + k)
        = some v := by
  obtain ⟨hval, htile, hdlen, -, homap, hfmap⟩ := hwf
  have hfi' : lookupA m.featureIndices name = some fi := by
    simp only [Measurement.FeatureIndex] at hfi
    cases hh : lookupA m.featureIndices name with
    | none => rw [hh] at hfi; exact absurd hfi (by simp)
    | some i => rw [hh] at hfi; simpa using hfi
  have hoi' : lookupA m.objectIndices id = some oi := by
    simp only [Measurement.ObjectIndex] at hoi
    cases hh : lookupA m.objectIndices id with
    | none => rw [hh] at hoi; exact absurd hoi (by simp)
    | some i => rw [hh] at hoi; simpa using hoi
  rw [hfmap] at hfi'
  rw [homap] at hoi'
  have hfi_lt : fi < m.features.length := by
    have := (lookupA_idxMapFrom_range hfi').2
    simpa using this
  have hoi_lt : oi < m.objects.length := by
    have := (lookupA_idxMapFrom_range hoi').2
    simpa using this
  have hgetf : m.features.get? fi = some (m.features.get ⟨fi, hfi_lt⟩) :=
    List.get?_eq_get hfi_lt
  have hgetD : m.features.getD fi Measurement.featureInfoDefault
      = m.features.get ⟨fi, hfi_lt⟩ := by
    simp only [List.getD_eq_getElem?_getD, ← List.get?_eq_getElem?, hgetf,
      Option.getD_some]
  have hbounds := tiledFrom_bounds htile hgetf
  have hlen : m.data.length = m.values.length * m.objects.length := by
    have hne : m.data ≠ [] := by
      simpa [Measurement.IsForged] using hforged
    rcases hdlen with h | h
    · exact absurd (List.length_eq_zero.mp h) hne
    · exact h
  set f := m.features.get ⟨fi, hfi_lt⟩ with hfdef
  have hidx : oi * m.Stride + f.startColumn + k < m.data.length := by
    have hS : m.Stride = m.values.length := rfl
    have h1 : f.startColumn + f.numberValues ≤ m.values.length := by
      rw [hval]
      simpa using hbounds.2
    have hk' : k < f.numberValues := by
      rw [hgetD] at hk
      exact hk
    rw [hS, hlen, Nat.mul_comm m.values.length m.objects.length]
    have h2 : oi * m.values.length + f.startColumn + k
        < (oi + 1) * m.values.length := by
      nlinarith
    have h3 : (oi + 1) * m.values.length ≤ m.objects.length * m.values.length :=
      Nat.mul_le_mul_right _ hoi_lt
    omega
  have hget : m.data.get? (oi * m.Stride + f.startColumn + k)
      = some (m.data.get ⟨oi * m.Stride + f.startColumn + k, hidx⟩) :=
    List.get?_eq_get hidx
  refine ⟨m.data.get ⟨oi * m.Stride + f.startColumn + k, hidx⟩, ?_, ?_, ?_⟩
  · simp only [Measurement.featureViewValue, hfi, hoi, Except.bind, bind,
      pure, Except.pure, hgetD]
    rw [hget]
  · have hdata : m.Data = .ok m.data := by
      simp [Measurement.Data, hforged]
    simp only [Measurement.objectViewValue, hfi, hoi, hdata, Except.bind, bind,
      pure, Except.pure, hgetD]
    rw [hget]
  · rw [hgetD, hget]

/-- Witness for C1 on the forged one-cell table `mExF`: both view routes at
("Size", 7, 0) read the buffer element at index 0, value 5. -/
theorem view_duality_witness :
    ∃ v : Value,
      mExF.featureViewValue "Size" 7 0 = .ok (some v) ∧
      mExF.objectViewValue 7 "Size" 0 = .ok (some v) ∧
      mExF.data.get? (0 * mExF.Stride +
        (mExF.features.getD 0 Measurement.featureInfoDefault).startColumn + 0)
        = some v :=
  view_duality mExF (by decide) rfl "Size" 7 0 0 0 rfl rfl (by decide)

/-! ## C4 -/

/-- C4: after every successful sequence of
`AddFeature`/`EnsureFeature`/`AddObjectIDs`/`Forge` calls starting from the
empty table, `Stride()` equals the sum of `numberValues` over the recorded
features, which equals the number of value-information records, and the
feature column groups tile `[0, Stride)` contiguously in insertion order. -/
theorem layout_invariant (ops : List Op) (m : Measurement)
    (h : runOps measurementEmpty ops = .ok m) :
    m.Stride = featureValueSum m.features ∧
    m.NumberOfValues = featureValueSum m.features ∧
    tiledFrom 0 m.features = true := by
  obtain ⟨hval, htile, -, -, -, -⟩ := wellFormed_reachable h
  exact ⟨hval, hval, htile⟩

/-- The table built by the witness operation sequence for C4. -/
def mOps : Measurement :=
  ⟨[3, 1], [(3, 0), (1, 1)], [⟨"Size", 0, 1⟩, ⟨"Center", 1, 2⟩],
    [⟨"", "px"⟩, ⟨"x", "px"⟩, ⟨"y", "px"⟩], [("Size", 0), ("Center", 1)],
    List.replicate 6 0⟩

/-- Witness for C4: a five-operation sequence (two features totalling three
value columns, a redundant `EnsureFeature`, two objects, then `Forge`)
reaches `mOps`, whose stride is 3 and whose column groups tile `[0, 3)`. -/
theorem layout_invariant_witness :
    mOps.Stride = featureValueSum mOps.features ∧
    mOps.NumberOfValues = featureValueSum mOps.features ∧
    tiledFrom 0 mOps.features = true :=
  layout_invariant
    [.addFeature "Size" [⟨"", "px"⟩],
     .addFeature "Center" [⟨"x", "px"⟩, ⟨"y", "px"⟩],
     .ensureFeature "Size" [],
     .addObjectIDs [3, 1],
     .forge]
    mOps rfl

/-! ## C8 and C9: lemmas about the object-insertion loop -/

theorem lookupA_emplaceA_mono {α : Type} [DecidableEq α] {l : List (α × Nat)}
    {x : α} (k : α) (v : Nat) (h : (lookupA l x).isSome = true) :
    (lookupA (emplaceA l k v) x).isSome = true := by
  unfold emplaceA
  by_cases hk : (lookupA l k).isSome
  · simpa [hk] using h
  · simp only [hk, Bool.false_eq_true, if_false, if_neg]
    cases hh : lookupA l x with
    | none => rw [hh] at h; simp at h
    | some w => rw [lookupA_append_of_some _ hh]; rfl

theorem objectExists_iff_mem {m : Measurement}
    (homap : m.objectIndices = idxMapFrom 0 m.objects) (x : Nat) :
    m.ObjectExists x = true ↔ x ∈ m.objects := by
  rw [Measurement.ObjectExists, homap]
  exact lookupA_idxMapFrom_isSome 0 _ _

theorem objectExists_addObjectLoop_mono {ids : List Nat} :
    ∀ {m : Measurement} {x : Nat}, m.ObjectExists x = true →
      (m.addObjectLoop ids).1.ObjectExists x = true := by
  induction ids with
  | nil => intro m x h; exact h
  | cons id rest ih =>
    intro m x h
    by_cases hex : m.ObjectExists id
    · have hstep : m.addObjectLoop (id :: rest)
          = (m, some (.objectAlreadyPresent id)) := by
        simp [Measurement.addObjectLoop, hex]
      rw [hstep]
      exact h
    · simp only [Measurement.addObjectLoop, if_neg hex]
      exact ih (by
        simpa [Measurement.ObjectExists] using
          lookupA_emplaceA_mono id m.objects.length h)

theorem addObjectLoop_fail_of_exists {ids : List Nat} :
    ∀ {m : Measurement}, (∃ id ∈ ids, m.ObjectExists id = true) →
      ((m.addObjectLoop ids).2).isSome = true := by
  induction ids with
  | nil =>
    rintro m ⟨id, hmem, -⟩
    simp at hmem
  | cons id0 rest ih =>
    rintro m ⟨id, hmem, hex⟩
    by_cases hex0 : m.ObjectExists id0
    · have hstep : m.addObjectLoop (id0 :: rest)
          = (m, some (.objectAlreadyPresent id0)) := by
        simp [Measurement.addObjectLoop, hex0]
      rw [hstep]
      rfl
    · simp only [Measurement.addObjectLoop, if_neg hex0]
      rcases List.mem_cons.mp hmem with h | h
      · subst h
        exact absurd hex hex0
      · exact ih ⟨id, h, by
          simpa [Measurement.ObjectExists] using
            lookupA_emplaceA_mono id0 m.objects.length hex⟩

theorem addObjectLoop_ok_objects {ids : List Nat} :
    ∀ {m m' : Measurement}, m.addObjectLoop ids = (m', none) →
      m'.objects = m.objects ++ ids := by
  induction ids with
  | nil =>
    intro m m' h
    simp only [Measurement.addObjectLoop, Prod.mk.injEq] at h
    rw [← h.1]
    simp
  | cons id rest ih =>
    intro m m' h
    by_cases hex : m.ObjectExists id
    · have hstep : m.addObjectLoop (id :: rest)
          = (m, some (.objectAlreadyPresent id)) := by
        simp [Measurement.addObjectLoop, hex]
      rw [hstep] at h
      simp at h
    · simp only [Measurement.addObjectLoop, if_neg hex] at h
      have := ih h
      simpa [List.append_assoc] using this

/-- C8: `AddObjectIDs(ids)` fails (leaving the table untouched) when the
table is forged, fails whenever some identifier in `ids` is already present;
and on success it has appended exactly `ids` to the row order in the order
given, with an injective identifier→row-index map in which every given
identifier is present. -/
theorem addObjectIDs_spec (m : Measurement) (ids : List Nat)
    (hwf : WellFormed m) :
    (m.IsForged = true → m.AddObjectIDs ids = (m, some .alreadyForged)) ∧
    ((∃ id ∈ ids, m.ObjectExists id = true) →
      ((m.AddObjectIDs ids).2).isSome = true) ∧
    (∀ m', m.AddObjectIDs ids = (m', none) →
      m'.objects = m.objects ++ ids ∧
      (∀ a b i, lookupA m'.objectIndices a = some i →
        lookupA m'.objectIndices b = some i → a = b) ∧
      (∀ x ∈ ids, m'.ObjectExists x = true)) := by
  refine ⟨?_, ?_, ?_⟩
  · intro h1
    simp [Measurement.AddObjectIDs, h1]
  · intro hex
    by_cases h1 : m.IsForged
    · simp [Measurement.AddObjectIDs, h1]
    · simp only [Measurement.AddObjectIDs, if_neg h1]
      exact addObjectLoop_fail_of_exists hex
  · intro m' h
    by_cases h1 : m.IsForged
    · rw [Measurement.AddObjectIDs, if_pos h1] at h
      simp at h
    · rw [Measurement.AddObjectIDs, if_neg h1] at h
      obtain ⟨-, -, -, -, hwf'⟩ := @wellFormed_addObjectLoop ids m hwf
        (data_eq_nil_of_not_forged (by simpa using h1))
      rw [h] at hwf'
      obtain ⟨-, -, -, -, homap', -⟩ := hwf'
      have hobj := addObjectLoop_ok_objects h
      refine ⟨hobj, ?_, ?_⟩
      · intro a b i ha hb
        rw [homap'] at ha hb
        have ha' := lookupA_idxMapFrom_get ha
        have hb' := lookupA_idxMapFrom_get hb
        simp only [Nat.sub_zero] at ha' hb'
        rw [ha'] at hb'
        exact (Option.some.injEq _ _).mp hb'
      · intro x hx
        rw [objectExists_iff_mem homap', hobj]
        exact List.mem_append_right _ hx

/-- The table reached from `mEx` by successfully adding objects 9 and 4. -/
def mAdded : Measurement :=
  ⟨[7, 9, 4], [(7, 0), (9, 1), (4, 2)], [⟨"Size", 0, 1⟩], [⟨"", "px"⟩],
    [("Size", 0)], []⟩

/-- Witness for C8: on forged `mExF` the call fails with *AlreadyForged*;
on `mEx` (object 7 present) adding `[9, 7]` fails; adding the fresh `[9, 4]`
succeeds and appends them in order. -/
theorem addObjectIDs_spec_witness :
    mExF.AddObjectIDs [1] = (mExF, some .alreadyForged) ∧
    ((mEx.AddObjectIDs [9, 7]).2).isSome = true ∧
    mAdded.objects = mEx.objects ++ [9, 4] := by
  refine ⟨?_, ?_, ?_⟩
  · exact (addObjectIDs_spec mExF [1] (by decide)).1 rfl
  · exact (addObjectIDs_spec mEx [9, 7] (by decide)).2.1
      ⟨7, by decide, by rfl⟩
  · exact ((addObjectIDs_spec mEx [9, 4] (by decide)).2.2 mAdded rfl).1

theorem lookupA_emplaceA_self {α : Type} [DecidableEq α] {l : List (α × Nat)}
    {k : α} (v : Nat) (h : lookupA l k = none) :
    lookupA (emplaceA l k v) k = some v := by
  rw [lookupA_emplaceA_of_absent _ h, lookupA_append_of_none _ h]
  simp [lookupA]

theorem addObjectLoop_fail_characterization {ids : List Nat} :
    ∀ {m m' : Measurement} {e : Err}, m.addObjectLoop ids = (m', some e) →
      ∃ i, i < ids.length ∧
        e = .objectAlreadyPresent (ids.getD i 0) ∧
        m'.objects = m.objects ++ ids.take i ∧
        m'.ObjectExists (ids.getD i 0) = true ∧
        ∀ j, j < i → m'.ObjectExists (ids.getD j 0) = true := by
  induction ids with
  | nil =>
    intro m m' e h
    simp only [Measurement.addObjectLoop, Prod.mk.injEq] at h
    exact absurd h.2 (by simp)
  | cons id0 rest ih =>
    intro m m' e h
    by_cases hex0 : m.ObjectExists id0
    · have hstep : m.addObjectLoop (id0 :: rest)
          = (m, some (.objectAlreadyPresent id0)) := by
        simp [Measurement.addObjectLoop, hex0]
      rw [hstep] at h
      obtain ⟨hm, he⟩ := Prod.mk.injEq .. ▸ h
      refine ⟨0, by simp, ?_, by simp [← hm], ?_, by omega⟩
      · simpa using he.symm
      · rw [← hm]
        simpa using hex0
    · simp only [Measurement.addObjectLoop, if_neg hex0] at h
      obtain ⟨i', hi', he, hobj, hexi, hall⟩ := ih h
      have habs : lookupA m.objectIndices id0 = none := by
        simp only [Measurement.ObjectExists] at hex0
        exact Option.not_isSome_iff_eq_none.mp (by simp [hex0])
      have hx0 : m'.ObjectExists id0 = true := by
        have h1 : Measurement.ObjectExists
            { m with objects := m.objects ++ [id0]
                     objectIndices := emplaceA m.objectIndices id0 m.objects.length }
            id0 = true := by
          simp [Measurement.ObjectExists, lookupA_emplaceA_self _ habs]
        have h2 := @objectExists_addObjectLoop_mono rest _ _ h1
        rw [h] at h2
        exact h2
      refine ⟨i' + 1, by simpa using hi', by simpa using he, ?_, ?_, ?_⟩
      · rw [List.take_succ_cons, hobj]
        simp
      · simpa using hexi
      · intro j hj
        cases j with
        | zero => simpa using hx0
        | succ j' =>
          have := hall j' (by omega)
          simpa using this

/-- C9: `AddObjectIDs` is not atomic. A failing call on a non-forged table
stopped at some position `i` of the input: the error names `ids[i]`, the
identifiers before position `i` have nevertheless been appended to the row
order, and each of them (and the offending identifier) is present in the
table left behind by the error — so an input repeating a fresh identifier
fails while keeping its first occurrence. -/
theorem addObjectIDs_nonAtomic (m : Measurement) (ids : List Nat)
    (m' : Measurement) (e : Err) (hnf : m.IsForged = false)
    (h : m.AddObjectIDs ids = (m', some e)) :
    ∃ i, i < ids.length ∧
      e = .objectAlreadyPresent (ids.getD i 0) ∧
      m'.objects = m.objects ++ ids.take i ∧
      m'.ObjectExists (ids.getD i 0) = true ∧
      ∀ j, j < i → m'.ObjectExists (ids.getD j 0) = true := by
  rw [Measurement.AddObjectIDs, if_neg (by simp [hnf])] at h
  exact addObjectLoop_fail_characterization h

/-- The table left behind by the failing call `AddObjectIDs({5, 5})` on the
empty table: the first 5 is inserted, the second throws. -/
def mDup : Measurement := ⟨[5], [(5, 0)], [], [], [], []⟩

/-- Witness for C9: `AddObjectIDs({5, 5})` on the empty table fails naming 5,
yet leaves the first 5 inserted and present. -/
theorem addObjectIDs_nonAtomic_witness :
    ∃ i, i < [5, 5].length ∧
      Err.objectAlreadyPresent 5 = .objectAlreadyPresent ([5, 5].getD i 0) ∧
      mDup.objects = measurementEmpty.objects ++ [5, 5].take i ∧
      mDup.ObjectExists ([5, 5].getD i 0) = true ∧
      ∀ j, j < i → mDup.ObjectExists ([5, 5].getD j 0) = true :=
  addObjectIDs_nonAtomic measurementEmpty [5, 5] mDup
    (.objectAlreadyPresent 5) rfl rfl

/-! ## C6 -/

theorem specFirstByName_congr {fs : List Information} :
    ∀ {s1 s2 : List String}, (∀ x, x ∈ s1 ↔ x ∈ s2) →
      specFirstByName fs s1 = specFirstByName fs s2 := by
  induction fs with
  | nil => intro s1 s2 _; rfl
  | cons f rest ih =>
    intro s1 s2 h
    simp only [specFirstByName]
    by_cases hm : f.name ∈ s1
    · rw [if_pos hm, if_pos ((h f.name).mp hm)]
      exact ih h
    · rw [if_neg hm, if_neg (fun hc => hm ((h f.name).mpr hc))]
      congr 1
      refine ih fun x => ?_
      simp only [List.mem_cons]
      rw [h x]

/-- The registry invariant: the name→index map is exactly the push-back-order
index map of the instance array. -/
def ToolShape (t : Tool) : Prop :=
  t.featureIndices = idxMapFrom 0 (t.features.map (·.name))

theorem register_fold {fs : List Information} :
    ∀ {t : Tool}, ToolShape t →
      Features (fs.foldl Register t)
        = t.features ++ specFirstByName fs (t.features.map (·.name)) := by
  induction fs with
  | nil =>
    intro t _
    simp [Features, specFirstByName]
  | cons f rest ih =>
    intro t hsh
    simp only [List.foldl_cons, specFirstByName]
    by_cases hmem : f.name ∈ t.features.map (·.name)
    · have hlk : (lookupA t.featureIndices f.name).isSome = true := by
        rw [hsh]
        exact (lookupA_idxMapFrom_isSome 0 _ _).mpr hmem
      rw [if_pos hmem]
      have hreg : Register t f = t := by
        simp [Register, hlk]
      rw [hreg]
      exact ih hsh
    · have hlk : lookupA t.featureIndices f.name = none := by
        rw [hsh]
        exact Option.not_isSome_iff_eq_none.mp (by
          rw [lookupA_idxMapFrom_isSome 0 _ _]
          exact hmem)
      have hreg : Register t f
          = ⟨t.features ++ [f], t.featureIndices ++ [(f.name, t.features.length)]⟩ := by
        simp [Register, hlk, emplaceA]
      have hsh' : ToolShape ⟨t.features ++ [f],
          t.featureIndices ++ [(f.name, t.features.length)]⟩ := by
        unfold ToolShape
        simp only [List.map_append, List.map_cons, List.map_nil]
        rw [hsh]
        have := (idxMapFrom_append 0 (t.features.map (·.name)) f.name).symm
        simpa using this
      rw [if_neg hmem, hreg, ih hsh']
      simp only [List.append_assoc, List.cons_append, List.nil_append]
      congr 2
      refine specFirstByName_congr fun x => ?_
      simp only [List.map_append, List.map_cons, List.map_nil, List.mem_append,
        List.mem_cons, List.mem_singleton]
      constructor
      · rintro (h | h)
        · exact Or.inr h
        · exact Or.inl (by simpa using h)
      · rintro (h | h)
        · exact Or.inr (by simpa using h)
        · exact Or.inl h

/-- C6: registering a feature whose name is already registered is a silent
no-op that keeps the registry unchanged (the argument is discarded), and for
every registration sequence starting from the empty registry, `Features()`
returns exactly the information records of the first-registered instance per
distinct name, in registration order of those surviving instances. -/
theorem register_first_wins :
    (∀ (t : Tool) (f : Information),
      (lookupA t.featureIndices f.name).isSome = true → Register t f = t) ∧
    (∀ fs : List Information,
      Features (List.foldl Register toolEmpty fs) = specFirstByName fs []) := by
  constructor
  · intro t f h
    simp [Register, h]
  · intro fs
    have h := @register_fold fs toolEmpty (by rfl)
    simpa [toolEmpty, Features] using h

/-- Two feature instances sharing the name "Size" but differing otherwise. -/
def featA : Information := ⟨"Size", "area of the object", false⟩

/-- The second, discarded instance with the same name as `featA`. -/
def featB : Information := ⟨"Size", "an impostor", true⟩

/-- A registry already holding `featA`. -/
def toolEx : Tool := ⟨[featA], [("Size", 0)]⟩

/-- Witness for C6: registering the second "Size" instance into `toolEx` is a
no-op, and folding both registrations from the empty registry keeps only the
first instance. -/
theorem register_first_wins_witness :
    Register toolEx featB = toolEx ∧
    Features (List.foldl Register toolEmpty [featA, featB]) = [featA] := by
  constructor
  · exact register_first_wins.1 toolEx featB rfl
  · have h := register_first_wins.2 [featA, featB]
    rw [h]
    rfl

/-! ## C7 -/

theorem getD_set_ne {l : List Value} {i j : Nat} (h : i ≠ j) (a : Value) :
    (l.set i a).getD j 0 = l.getD j 0 := by
  simp [List.getD_eq_getElem?_getD, List.getElem?_set_ne h]

theorem getD_set_self {l : List Value} {j : Nat} (h : j < l.length) (a : Value) :
    (l.set j a).getD j 0 = a := by
  simp [List.getD_eq_getElem?_getD, List.getElem?_set_self, h]

theorem massApply_length (acc : List Value) (cidx : Option Nat) (g : Value) :
    (massApply acc cidx g).length = acc.length := by
  cases cidx <;> simp [massApply]

theorem massScanLoop_length {map : List (Nat × Nat)} {ls : List Nat} :
    ∀ {gs : List Value} {cid : Nat} {cidx : Option Nat} {acc : List Value},
      (massScanLoop map ls gs cid cidx acc).length = acc.length := by
  induction ls with
  | nil => intro gs cid cidx acc; rfl
  | cons l ls ih =>
    intro gs cid cidx acc
    cases gs with
    | nil => rfl
    | cons g gs =>
      by_cases hl : 0 < l
      · simp only [massScanLoop, if_pos hl]
        rw [ih, massApply_length]
      · simp only [massScanLoop, if_neg hl]
        exact ih

theorem massScanLoop_getD {map : List (Nat × Nat)} {t j : Nat}
    (hmap : ∀ id, lookupA map id = some j ↔ id = t) (ht : 0 < t)
    {ls : List Nat} :
    ∀ {gs : List Value} {cid : Nat} {cidx : Option Nat} {acc : List Value},
      (cid = 0 ∨ cidx = lookupA map cid) → j < acc.length →
      (massScanLoop map ls gs cid cidx acc).getD j 0
        = acc.getD j 0 + lineMassSum t ls gs := by
  induction ls with
  | nil =>
    intro gs cid cidx acc _ _
    simp [massScanLoop, lineMassSum]
  | cons l ls ih =>
    intro gs cid cidx acc hcache hj
    cases gs with
    | nil => simp [massScanLoop, lineMassSum]
    | cons g gs =>
      have hsum : lineMassSum t (l :: ls) (g :: gs)
          = (if l = t then g else 0) + lineMassSum t ls gs := rfl
      by_cases hl : 0 < l
      · have hc2 : (massCacheStep map l cid cidx).2 = lookupA map l := by
          unfold massCacheStep
          by_cases hne : l ≠ cid
          · simp [hne]
          · push_neg at hne
            rcases hcache with h0 | hcc
            · omega
            · simp only [hne, ne_eq, not_true_eq_false, if_false, if_neg]
              rw [hcc]
        have hc1 : (massCacheStep map l cid cidx).1 = l := by
          unfold massCacheStep
          by_cases hne : l ≠ cid
          · simp [hne]
          · push_neg at hne
            simp [hne]
        simp only [massScanLoop, if_pos hl]
        have hcache' : (massCacheStep map l cid cidx).1 = 0 ∨
            (massCacheStep map l cid cidx).2
              = lookupA map (massCacheStep map l cid cidx).1 :=
          Or.inr (by rw [hc1, hc2])
        have hlen : j < (massApply acc (massCacheStep map l cid cidx).2 g).length := by
          rw [massApply_length]
          exact hj
        rw [ih hcache' hlen, hsum, hc2]
        by_cases hlt : l = t
        · subst hlt
          have hjl : lookupA map l = some j := (hmap l).mpr rfl
          rw [hjl]
          simp only [massApply]
          rw [getD_set_self hj]
          simp only [if_true, eq_self_iff_true]
          ring
        · cases hlk : lookupA map l with
          | none =>
            simp [massApply, hlt]
          | some j' =>
            have hne' : j' ≠ j := by
              intro hcon
              subst hcon
              exact hlt ((hmap l).mp hlk)
            simp only [massApply]
            rw [getD_set_ne hne', if_neg hlt]
            ring
      · have hl0 : l = 0 := by omega
        simp only [massScanLoop, if_neg hl]
        rw [ih hcache hj, hsum, hl0, if_neg (by omega)]
        ring

theorem massScanAll_getD {map : List (Nat × Nat)} {t j : Nat}
    (hmap : ∀ id, lookupA map id = some j ↔ id = t) (ht : 0 < t)
    {lines : List (List Nat × List Value)} :
    ∀ {acc : List Value}, j < acc.length →
      (massScanAll map lines acc).getD j 0
        = acc.getD j 0 + ((lines.map fun lg => lineMassSum t lg.1 lg.2)).sum := by
  induction lines with
  | nil =>
    intro acc _
    simp [massScanAll]
  | cons lg rest ih =>
    intro acc hj
    have hstep : massScanAll map (lg :: rest) acc
        = massScanAll map rest (massScanLine map lg.1 lg.2 acc) := rfl
    have hlen : j < (massScanLine map lg.1 lg.2 acc).length := by
      rw [massScanLine, massScanLoop_length]
      exact hj
    rw [hstep, ih hlen, massScanLine,
      massScanLoop_getD hmap ht (Or.inl rfl) hj]
    simp only [List.map_cons, List.sum_cons]
    ring

/-- C7: Mass as the source computes it — the accumulator array is initialized
to one zero per object row, every scanline is presented to `ScanLine`, and
`Finish(j)` emits slot `j`. For an object row `j` whose identifier under the
identifier→row-index map is exactly the positive label `t`, the output is
the sum of the grey values over exactly the pixels labelled `t`; pixels with
label 0 and pixels whose label is absent from the map contribute to no
accumulator slot. -/
theorem mass_sum_correct (map : List (Nat × Nat)) (t j n : Nat)
    (lines : List (List Nat × List Value))
    (hmap : ∀ id, lookupA map id = some j ↔ id = t) (ht : 0 < t)
    (hj : j < n) :
    massFinish (massScanAll map lines (massInit n)) j
      = ((lines.map fun lg => lineMassSum t lg.1 lg.2)).sum := by
  unfold massFinish massInit
  rw [massScanAll_getD hmap ht (by simpa using hj)]
  simp [List.getD_eq_getElem?_getD, List.getElem?_replicate, hj]

/-- The label image `L` and grey image `G` of spec scenario S2, as the three
scanlines the driver presents. -/
def linesS2 : List (List Nat × List Value) :=
  [([0, 1, 1], [0, 4, 2]), ([0, 1, 2], [0, 6, 8]), ([2, 2, 0], [3, 5, 0])]

/-- Witness for C7, spec scenario S2: with rows for objects 1 and 2, Mass
yields 12 for object 1 (row 0) and 16 for object 2 (row 1). -/
theorem mass_sum_correct_witness :
    massFinish (massScanAll [(1, 0), (2, 1)] linesS2 (massInit 2)) 0 = 12 ∧
    massFinish (massScanAll [(1, 0), (2, 1)] linesS2 (massInit 2)) 1 = 16 := by
  constructor
  · have h := mass_sum_correct [(1, 0), (2, 1)] 1 0 2 linesS2
      (by
        intro id
        by_cases h1 : id = 1
        · simp [lookupA, h1]
        · by_cases h2 : id = 2 <;> simp [lookupA, h1, h2])
      (by decide) (by decide)
    rw [h]
    norm_num [linesS2, lineMassSum]
  · have h := mass_sum_correct [(1, 0), (2, 1)] 2 1 2 linesS2
      (by
        intro id
        by_cases h1 : id = 1
        · simp [lookupA, h1]
        · by_cases h2 : id = 2 <;> simp [lookupA, h1, h2])
      (by decide) (by decide)
    rw [h]
    norm_num [linesS2, lineMassSum]

end Dip
